import Mathlib

/-!
Shallow embedding of `src/prompt_toolkit/filters/base.py`.

Python `Filter` objects are mutable heap objects whose identity matters
(the `and`/`or`/`invert` caches are keyed by object identity, and several
spec claims are about object identity of results).  We therefore model a
heap of filter objects: an object is addressed by a natural-number id
(its position in an allocation list), and every operation threads the heap.

Each `Filter` instance carries, per `Filter.__init__`:
  `_and_cache` and `_or_cache` (dicts keyed by the identity of the other
  filter, since `Filter` defines neither custom equality nor hashing), and
  `_invert_result` (an optional cached negation).

The class of an object is captured by its `kind`; method dispatch
(`Never.__and__`, `Always.__or__`, `Always.__invert__`, `Never.__invert__`
override the base implementations) is a match on the kind.

One modelling choice: `_AndList.create` / `_OrList.create` pass the pair
through `list(set(filters))`, whose iteration order for two distinct
objects is unspecified in Python; the model keeps the argument order
`[self, other]` for the children of the allocated node.  No property
proved below depends on the order of a node's child list; the
deduplication to a single element when the two ids coincide (which the
properties do depend on) is order-independent.
-/

namespace PTFilters

/-- Python exceptions and model-level failure modes that the embedded
operations can surface. -/
inductive PErr where
  | assertionError (msg : String)
  | valueError (msg : String)
  | typeError (msg : String)
  | invalidRef
  | fuelOut
deriving DecidableEq, Repr

/-- The concrete class of a filter object: `Always`, `Never`, `_AndList`,
`_OrList`, `_Invert`, or a `_Condition` leaf produced by calling a
`Condition` wrapper (the callback is an index into an environment of
zero-argument callables). -/
inductive FKind where
  | always
  | never
  | andList (children : List Nat)
  | orList (children : List Nat)
  | invertOf (inner : Nat)
  | condition (func : Nat)
deriving DecidableEq, Repr

/-- The two constant classes `Always` and `Never`. -/
def FKind.isConst : FKind → Bool
  | .always => true
  | .never => true
  | _ => false

/-- One heap-allocated `Filter` instance: its class data plus the three
mutable slots set up by `Filter.__init__`. -/
structure FilterObj where
  kind : FKind
  andCache : List (Nat × Nat)
  orCache : List (Nat × Nat)
  invertResult : Option Nat
deriving DecidableEq, Repr

/-- A freshly constructed filter object: `Filter.__init__` initialises both
caches empty and `_invert_result = None`. -/
def FilterObj.fresh (k : FKind) : FilterObj :=
  ⟨k, [], [], none⟩

/-- A `Condition` wrapper object (NOT a `Filter` subclass in this code):
it stores only `self.func`, an index into the callback environment. -/
structure ConditionW where
  func : Nat
deriving DecidableEq, Repr

/-- Python values the embedded operations exchange: a reference to a
heap-allocated `Filter`, a `Condition` wrapper, a `bool`, or a string
(standing for an arbitrary non-Filter argument). -/
inductive PyVal where
  | filt (i : Nat)
  | condW (w : ConditionW)
  | bool (b : Bool)
  | str (s : String)
deriving DecidableEq, Repr

/-- Whether a Python value is a `Filter` instance (`isinstance(v, Filter)`).
`Condition` wrappers are not `Filter` instances in this code. -/
def PyVal.isFilt : PyVal → Bool
  | .filt _ => true
  | _ => false

/-- List indexing (the heap lookup primitive). -/
def lget {α : Type} : List α → Nat → Option α
  | [], _ => none
  | x :: _, 0 => some x
  | _ :: xs, n + 1 => lget xs n

/-- List update at an index (the heap mutation primitive). -/
def lset {α : Type} : List α → Nat → α → List α
  | [], _, _ => []
  | _ :: xs, 0, y => y :: xs
  | x :: xs, n + 1, y => x :: lset xs n y

/-- Association-list lookup keyed by object id: the model of a Python dict
keyed by `Filter` identity. -/
def alookup : List (Nat × Nat) → Nat → Option Nat
  | [], _ => none
  | (k, v) :: rest, x => if k = x then some v else alookup rest x

/-- The heap: filter objects in allocation order; an id is a position. -/
structure Heap where
  objs : List FilterObj
deriving DecidableEq, Repr

/-- Dereference an object id. -/
def Heap.get (h : Heap) (i : Nat) : Option FilterObj :=
  lget h.objs i

/-- Number of allocated objects; also the id the next allocation gets. -/
def Heap.size (h : Heap) : Nat :=
  h.objs.length

/-- Allocate a new object at the end of the heap (its id is `h.size`). -/
def Heap.alloc (h : Heap) (f : FilterObj) : Heap :=
  ⟨h.objs ++ [f]⟩

/-- Overwrite the object stored at id `i` (models field mutation). -/
def Heap.setObj (h : Heap) (i : Nat) (f : FilterObj) : Heap :=
  ⟨lset h.objs i f⟩

/-- The `&` operator on a filter `self` and an arbitrary Python value.

Dispatch: `Never.__and__(self, other)` is overridden to `return self`
with no argument check.  Every other class uses `Filter.__and__`, which
first asserts `isinstance(other, Filter)`, returns `self` when `other`
is an `Always`, returns `other` when it is a `Never`, then consults
`self._and_cache` keyed by the identity of `other`, and on a miss runs
`_AndList.create([self, other])` — `list(set(...))` collapses the pair to
`[self]` when the two ids coincide, in which case `create` returns that
one filter; otherwise it allocates an `_AndList` node — and stores the
result in the cache before returning it. -/
def filterAnd (h : Heap) (self : Nat) (other : PyVal) : Except PErr (Heap × Nat) :=
  match h.get self with
  | none => .error .invalidRef
  | some fs =>
    match fs.kind with
    | .never => .ok (h, self)
    | _ =>
      match other with
      | .filt o =>
        match h.get o with
        | none => .error .invalidRef
        | some fo =>
          match fo.kind with
          | .always => .ok (h, self)
          | .never => .ok (h, o)
          | _ =>
            match alookup fs.andCache o with
            | some r => .ok (h, r)
            | none =>
              if self = o then
                .ok (h.setObj self { fs with andCache := (o, self) :: fs.andCache }, self)
              else
                let n := h.size
                let h1 := h.alloc (FilterObj.fresh (.andList [self, o]))
                .ok (h1.setObj self { fs with andCache := (o, n) :: fs.andCache }, n)
      | _ => .error (.assertionError "Expecting filter")

/-- The `|` operator on a filter `self` and an arbitrary Python value.

Dispatch: `Always.__or__(self, other)` is overridden to `return self`
with no argument check.  Every other class uses `Filter.__or__`: assert
`isinstance(other, Filter)`, return `other` when it is an `Always`,
return `self` when it is a `Never`, then the `_or_cache` /
`_OrList.create` path exactly dual to `filterAnd`. -/
def filterOr (h : Heap) (self : Nat) (other : PyVal) : Except PErr (Heap × Nat) :=
  match h.get self with
  | none => .error .invalidRef
  | some fs =>
    match fs.kind with
    | .always => .ok (h, self)
    | _ =>
      match other with
      | .filt o =>
        match h.get o with
        | none => .error .invalidRef
        | some fo =>
          match fo.kind with
          | .always => .ok (h, o)
          | .never => .ok (h, self)
          | _ =>
            match alookup fs.orCache o with
            | some r => .ok (h, r)
            | none =>
              if self = o then
                .ok (h.setObj self { fs with orCache := (o, self) :: fs.orCache }, self)
              else
                let n := h.size
                let h1 := h.alloc (FilterObj.fresh (.orList [self, o]))
                .ok (h1.setObj self { fs with orCache := (o, n) :: fs.orCache }, n)
      | _ => .error (.assertionError "Expecting filter")

/-- The `~` operator.  `Always.__invert__` is overridden to
`return Never()` — a freshly constructed `Never`, every call — and
`Never.__invert__` to `return Always()`, likewise fresh.  Every other
class uses `Filter.__invert__`, which builds `_Invert(self)` on first
use, stores it in `self._invert_result`, and returns the stored object
on every subsequent call. -/
def filterInvert (h : Heap) (self : Nat) : Except PErr (Heap × Nat) :=
  match h.get self with
  | none => .error .invalidRef
  | some fs =>
    match fs.kind with
    | .always => .ok (h.alloc (FilterObj.fresh .never), h.size)
    | .never => .ok (h.alloc (FilterObj.fresh .always), h.size)
    | _ =>
      match fs.invertResult with
      | some r => .ok (h, r)
      | none =>
        let n := h.size
        let h1 := h.alloc (FilterObj.fresh (.invertOf self))
        .ok (h1.setObj self { fs with invertResult := some n }, n)

/-- The message `Filter.__bool__` raises with. -/
def boolMsg : String :=
  "The truth value of a Filter is ambiguous. Instead, call it as a function."

/-- `bool(...)` on a `Filter` instance.  `Filter.__bool__` unconditionally
raises `ValueError(boolMsg)`; no subclass in the file overrides
`__bool__`, so the dispatch is uniform over the kind. -/
def filterBool (h : Heap) (self : Nat) : Except PErr Bool :=
  match h.get self with
  | none => .error .invalidRef
  | some _ => .error (.valueError boolMsg)

/-- `bool(...)` on a `Condition` wrapper.  `Condition` is not a `Filter`
subclass and defines neither `__bool__` nor `__len__`, so Python default
object truthiness applies: the wrapper is truthy, no error is raised. -/
def conditionBool (_ : ConditionW) : Except PErr Bool :=
  .ok true

/-- `Condition.__call__(self, *args, **kwargs)`: raises `ValueError` when
any argument is passed; otherwise constructs and returns a brand-new
`_Condition` filter capturing `self.func` (it does NOT call the callback
and does NOT return a boolean). -/
def conditionCall (h : Heap) (w : ConditionW) (args : List PyVal) :
    Except PErr (Heap × PyVal) :=
  match args with
  | [] => .ok (h.alloc (FilterObj.fresh (.condition w.func)), .filt h.size)
  | _ :: _ => .error (.valueError "Condition does not accept any arguments")

/-- The `&` operator between two `Condition` wrapper objects.  `Condition`
is not a `Filter` subclass and defines neither `__and__` nor `__rand__`,
so Python binary-operator dispatch finds no implementation on either
operand and raises `TypeError`. -/
def condAnd (_ _ : ConditionW) : Except PErr (Heap × PyVal) :=
  .error (.typeError "unsupported operand type for and-operator: Condition and Condition")

/-- `all(f() for f in self.filters)` over the already-listed child results:
stops at the first `False` (later generator items are never forced) and
propagates the first exception it reaches. -/
def evalAll : List (Except PErr Bool) → Except PErr Bool
  | [] => .ok true
  | e :: rest =>
    match e with
    | .error err => .error err
    | .ok false => .ok false
    | .ok true => evalAll rest

/-- `any(f() for f in self.filters)`: stops at the first `True` (later
generator items are never forced) and propagates the first exception it
reaches. -/
def evalAny : List (Except PErr Bool) → Except PErr Bool
  | [] => .ok false
  | e :: rest =>
    match e with
    | .error err => .error err
    | .ok true => .ok true
    | .ok false => evalAny rest

/-- Calling a filter (its `__call__`).  `env` gives the behaviour of each
`_Condition` callback (a callback may raise).  `Always() → True`,
`Never() → False`, `_AndList` is `all(...)` over its children in order,
`_OrList` is `any(...)`, `_Invert` negates its inner filter.  The fuel
bounds recursion depth; every filter tree built by the API is finite,
so a fuel larger than its depth never runs out. -/
def evalFilter (env : Nat → Except PErr Bool) (h : Heap) :
    Nat → Nat → Except PErr Bool
  | 0, _ => .error .fuelOut
  | fuel + 1, i =>
    match h.get i with
    | none => .error .invalidRef
    | some f =>
      match f.kind with
      | .always => .ok true
      | .never => .ok false
      | .condition k => env k
      | .invertOf j =>
        match evalFilter env h fuel j with
        | .ok b => .ok (!b)
        | .error e => .error e
      | .andList cs => evalAll (cs.map (fun c => evalFilter env h fuel c))
      | .orList cs => evalAny (cs.map (fun c => evalFilter env h fuel c))

/-- Extract the returned object id from a successful and/or/invert call. -/
def resId : Except PErr (Heap × Nat) → Option Nat
  | .ok (_, r) => some r
  | .error _ => none

/-- Extract the post-state heap from a successful and/or/invert call. -/
def resHeap : Except PErr (Heap × Nat) → Option Heap
  | .ok (h, _) => some h
  | .error _ => none

/-- Extract the returned value from a successful `Condition.__call__`. -/
def resVal : Except PErr (Heap × PyVal) → Option PyVal
  | .ok (_, v) => some v
  | .error _ => none

theorem lget_lt_of_some {α : Type} :
    ∀ {l : List α} {i : Nat} {x : α}, lget l i = some x → i < l.length := by
  intro l
  induction l with
  | nil => intro i x hx; simp [lget] at hx
  | cons a as ih =>
    intro i x hx
    cases i with
    | zero => simp
    | succ n =>
      have hn : n < as.length := ih (by simpa [lget] using hx)
      simpa using Nat.succ_lt_succ hn

theorem lget_append_lt {α : Type} :
    ∀ (l l2 : List α) (i : Nat), i < l.length → lget (l ++ l2) i = lget l i := by
  intro l
  induction l with
  | nil => intro l2 i hi; simp at hi
  | cons a as ih =>
    intro l2 i hi
    cases i with
    | zero => simp [lget]
    | succ n =>
      have hn : n < as.length := Nat.lt_of_succ_lt_succ (by simpa using hi)
      simpa [lget] using ih l2 n hn

theorem lget_append_self {α : Type} :
    ∀ (l : List α) (f : α), lget (l ++ [f]) l.length = some f := by
  intro l
  induction l with
  | nil => intro f; simp [lget]
  | cons a as ih => intro f; simpa [lget] using ih f

theorem lget_lset_self {α : Type} :
    ∀ {l : List α} {i : Nat}, i < l.length → ∀ (y : α), lget (lset l i y) i = some y := by
  intro l
  induction l with
  | nil => intro i hi; simp at hi
  | cons a as ih =>
    intro i hi y
    cases i with
    | zero => simp [lget, lset]
    | succ n =>
      have hn : n < as.length := Nat.lt_of_succ_lt_succ (by simpa using hi)
      simpa [lget, lset] using ih hn y

theorem lget_lset_ne {α : Type} :
    ∀ (l : List α) {i j : Nat}, i ≠ j → ∀ (y : α), lget (lset l i y) j = lget l j := by
  intro l
  induction l with
  | nil => intro i j _ y; simp [lset]
  | cons a as ih =>
    intro i j hij y
    cases i with
    | zero =>
      cases j with
      | zero => exact absurd rfl hij
      | succ m => simp [lget, lset]
    | succ n =>
      cases j with
      | zero => simp [lget, lset]
      | succ m =>
        have hnm : n ≠ m := fun he => hij (by simp [he])
        simpa [lget, lset] using ih hnm y

theorem Heap.get_alloc_lt {h : Heap} {i : Nat} {fi : FilterObj}
    (hi : h.get i = some fi) (f : FilterObj) : (h.alloc f).get i = some fi := by
  have hlt : i < h.objs.length := lget_lt_of_some hi
  simpa [Heap.get, Heap.alloc, lget_append_lt h.objs [f] i hlt] using hi

theorem Heap.get_alloc_self (h : Heap) (f : FilterObj) :
    (h.alloc f).get h.size = some f := by
  simpa [Heap.get, Heap.alloc, Heap.size] using lget_append_self h.objs f

theorem Heap.get_set_self {h : Heap} {i : Nat} {fi : FilterObj}
    (hi : h.get i = some fi) (f : FilterObj) : (h.setObj i f).get i = some f := by
  have hlt : i < h.objs.length := lget_lt_of_some hi
  simpa [Heap.get, Heap.setObj] using lget_lset_self hlt f

theorem Heap.get_set_ne (h : Heap) {i j : Nat} (hij : i ≠ j) (f : FilterObj) :
    (h.setObj i f).get j = h.get j := by
  simpa [Heap.get, Heap.setObj] using lget_lset_ne h.objs hij f

theorem Heap.size_alloc (h : Heap) (f : FilterObj) :
    (h.alloc f).size = h.size + 1 := by
  simp [Heap.alloc, Heap.size]

/-- Callback environment for the `mode == "insert"` scenario: with
`mode = "insert"` and `readonly = False` both callbacks return `True`. -/
def envInsert : Nat → Except PErr Bool :=
  fun _ => .ok true

/-- An empty heap (no filter objects allocated yet). -/
def hEmpty : Heap := ⟨[]⟩

/-- A heap holding an `Always` (id 0) and a condition leaf (id 1). -/
def hAX : Heap := ⟨[FilterObj.fresh .always, FilterObj.fresh (.condition 0)]⟩

/-- A heap holding a `Never` (id 0) and a condition leaf (id 1). -/
def hNX : Heap := ⟨[FilterObj.fresh .never, FilterObj.fresh (.condition 0)]⟩

/-- A heap holding a single `Always` instance. -/
def hA : Heap := ⟨[FilterObj.fresh .always]⟩

/-- A heap holding a single `Never` instance. -/
def hN : Heap := ⟨[FilterObj.fresh .never]⟩

/-- A heap holding two distinct `Never` instances (`Never()` is an
ordinary constructor in this code, so several instances can coexist). -/
def hNN : Heap := ⟨[FilterObj.fresh .never, FilterObj.fresh .never]⟩

/-- A heap holding two distinct `Always` instances. -/
def hAA : Heap := ⟨[FilterObj.fresh .always, FilterObj.fresh .always]⟩

/-- A heap holding two distinct condition leaves (ids 0 and 1). -/
def hCC : Heap := ⟨[FilterObj.fresh (.condition 0), FilterObj.fresh (.condition 1)]⟩

/-- Callback environment for the short-circuit scenario: callback 0
returns `False`, callback 1 raises, callback 2 returns `True`. -/
def envC9 : Nat → Except PErr Bool :=
  fun k => if k = 0 then .ok false else if k = 1 then .error (.valueError "boom") else .ok true

/-- Heap for the short-circuit scenario: 0 a `False` leaf, 1 a raising
leaf, 2 the `_AndList` with children `[0, 1]`, 3 a `True` leaf, 4 the
`_OrList` with children `[3, 1]`. -/
def hC9 : Heap :=
  ⟨[FilterObj.fresh (.condition 0), FilterObj.fresh (.condition 1),
    FilterObj.fresh (.andList [0, 1]), FilterObj.fresh (.condition 2),
    FilterObj.fresh (.orList [3, 1])]⟩

/-- C1: the spec says `Condition(c)` is a Filter whose evaluation returns
`c()` unchanged, so the composed filter call yields `True`.  In the code,
`Condition(c)` is not a `Filter`; calling it returns a brand-new
`_Condition` Filter object (not a boolean), the `&`-composition of two
wrappers is a `TypeError`, and only the returned Filter, when itself
called, evaluates the callback.  This theorem exhibits that divergence at
the concrete scenario (`mode = "insert"`, both callbacks `True`). -/
theorem c1_condition_call_divergence :
    resVal (conditionCall hEmpty ⟨0⟩ []) = some (.filt 0) ∧
    (PyVal.filt 0) ≠ (PyVal.bool true) ∧
    condAnd ⟨0⟩ ⟨1⟩ =
      .error (.typeError
        "unsupported operand type for and-operator: Condition and Condition") ∧
    ((conditionCall hEmpty ⟨0⟩ []).toOption.bind (fun p =>
      match p.2 with
      | .filt i => (evalFilter envInsert p.1 9 i).toOption
      | _ => none)) = some true := by
  refine ⟨rfl, by decide, rfl, rfl⟩

/-- C4: truth-testing any Filter instance directly raises the descriptive
`ValueError`, uniformly for every object in the heap whatever its kind
(`Always`, `Never`, leaf, or combinator) — no subclass overrides
`Filter.__bool__`. -/
theorem c4_truth_testing_filter_raises (h : Heap) (i : Nat)
    (hv : (h.get i).isSome = true) :
    filterBool h i = .error (.valueError boolMsg) := by
  cases hg : h.get i with
  | none => rw [hg] at hv; simp at hv
  | some f => simp [filterBool, hg]

theorem c4_truth_testing_filter_raises_witness :
    filterBool hC9 2 = .error (.valueError boolMsg) :=
  c4_truth_testing_filter_raises hC9 2 (by decide)

/-- C10: `bool(...)` on a `Condition` wrapper object raises no error and
silently yields `True` (Python default truthiness: `Condition` is not a
`Filter` subclass and overrides no truthiness hook), whereas every actual
Filter instance raises the misuse `ValueError` when truth-tested. -/
theorem c10_wrapper_truthiness_unprotected :
    (∀ w : ConditionW, conditionBool w = .ok true) ∧
    (∀ (h : Heap) (i : Nat), (h.get i).isSome = true →
      filterBool h i = .error (.valueError boolMsg)) := by
  constructor
  · intro w; rfl
  · intro h i hv
    cases hg : h.get i with
    | none => rw [hg] at hv; simp at hv
    | some f => simp [filterBool, hg]

theorem c10_wrapper_truthiness_unprotected_witness :
    conditionBool ⟨0⟩ = .ok true ∧ filterBool hAX 1 = .error (.valueError boolMsg) :=
  ⟨c10_wrapper_truthiness_unprotected.1 ⟨0⟩,
   c10_wrapper_truthiness_unprotected.2 hAX 1 (by decide)⟩

/-- C2 counterexample: `Always.and(X)` does not return `X`: on the heap
`hAX` (0 an `Always`, 1 a condition leaf), `0 & filt 1` allocates and
returns the fresh `_AndList` node 2 ≠ 1, and dually `Never.or(X)` on
`hNX` allocates the fresh `_OrList` node 2 ≠ 1.  So combining with a
constant on the left does build a combinator node. -/
theorem c2_left_constant_counterexample :
    resId (filterAnd hAX 0 (.filt 1)) = some 2 ∧ (2 : Nat) ≠ 1 ∧
    ((resHeap (filterAnd hAX 0 (.filt 1))).bind (fun h2 => h2.get 2)) =
      some (FilterObj.fresh (.andList [0, 1])) ∧
    resId (filterOr hNX 0 (.filt 1)) = some 2 ∧
    ((resHeap (filterOr hNX 0 (.filt 1))).bind (fun h2 => h2.get 2)) =
      some (FilterObj.fresh (.orList [0, 1])) := by
  refine ⟨rfl, by decide, rfl, rfl, rfl⟩

/-- C3 counterexample: negating the same `Always` instance twice yields
two distinct `Never` objects (ids 1 and 2): `Always.__invert__` builds a
fresh `Never()` on every call, so negation of a constant is neither
cached nor a process-wide singleton. -/
theorem c3_invert_caching_counterexample :
    resId (filterInvert hA 0) = some 1 ∧
    ((resHeap (filterInvert hA 0)).bind (fun h2 => resId (filterInvert h2 0))) = some 2 ∧
    (1 : Nat) ≠ 2 := by
  refine ⟨rfl, rfl, by decide⟩

/-- C5 counterexample: `Never.__and__` and `Always.__or__` perform no
argument check: `never & True` silently returns the `Never` itself and
`always | "x"` silently returns the `Always`, with no error raised. -/
theorem c5_nonfilter_arg_counterexample :
    filterAnd hN 0 (.bool true) = .ok (hN, 0) ∧
    filterOr hA 0 (.str "x") = .ok (hA, 0) :=
  ⟨rfl, rfl⟩

/-- C6 counterexample: with two distinct `Never` instances (heap `hNN`),
`X.and(Never)` for `X` the Never at id 0 and operand the Never at id 1
returns `X` itself (id 0), not the `Never` operand (id 1), because
`Never.__and__` overrides the base method and returns `self`; dually for
`X.or(Always)` with two distinct `Always` instances. -/
theorem c6_identity_counterexample :
    filterAnd hNN 0 (.filt 1) = .ok (hNN, 0) ∧ (0 : Nat) ≠ 1 ∧
    filterOr hAA 0 (.filt 1) = .ok (hAA, 0) := by
  refine ⟨rfl, by decide, rfl⟩

theorem filterAnd_cache_hit {h : Heap} {a b r : Nat} {fa fb : FilterObj}
    (ha : h.get a = some fa) (hb : h.get b = some fb)
    (hna : fa.kind ≠ .never) (hnbA : fb.kind ≠ .always) (hnbN : fb.kind ≠ .never)
    (hcl : alookup fa.andCache b = some r) :
    filterAnd h a (.filt b) = .ok (h, r) := by
  cases hak : fa.kind <;> rw [hak] at hna <;>
    first
    | exact absurd rfl hna
    | (cases hbk : fb.kind <;> rw [hbk] at hnbA hnbN <;>
        first
        | exact absurd rfl hnbA
        | exact absurd rfl hnbN
        | simp [filterAnd, ha, hb, hak, hbk, hcl])

theorem filterAnd_self_miss {h : Heap} {a : Nat} {fa : FilterObj}
    (ha : h.get a = some fa) (hnc : fa.kind.isConst = false)
    (hcl : alookup fa.andCache a = none) :
    filterAnd h a (.filt a) =
      .ok (h.setObj a { fa with andCache := (a, a) :: fa.andCache }, a) := by
  cases hak : fa.kind <;> rw [hak] at hnc <;>
    first
    | exact absurd hnc (by decide)
    | simp [filterAnd, ha, hak, hcl]

theorem filterAnd_miss {h : Heap} {a b : Nat} {fa fb : FilterObj}
    (ha : h.get a = some fa) (hb : h.get b = some fb)
    (hna : fa.kind ≠ .never) (hnbA : fb.kind ≠ .always) (hnbN : fb.kind ≠ .never)
    (hab : a ≠ b) (hcl : alookup fa.andCache b = none) :
    filterAnd h a (.filt b) =
      .ok ((h.alloc (FilterObj.fresh (.andList [a, b]))).setObj a
        { fa with andCache := (b, h.size) :: fa.andCache }, h.size) := by
  cases hak : fa.kind <;> rw [hak] at hna <;>
    first
    | exact absurd rfl hna
    | (cases hbk : fb.kind <;> rw [hbk] at hnbA hnbN <;>
        first
        | exact absurd rfl hnbA
        | exact absurd rfl hnbN
        | simp [filterAnd, ha, hb, hak, hbk, hcl, hab])

theorem filterOr_cache_hit {h : Heap} {a b r : Nat} {fa fb : FilterObj}
    (ha : h.get a = some fa) (hb : h.get b = some fb)
    (hna : fa.kind ≠ .always) (hnbA : fb.kind ≠ .always) (hnbN : fb.kind ≠ .never)
    (hcl : alookup fa.orCache b = some r) :
    filterOr h a (.filt b) = .ok (h, r) := by
  cases hak : fa.kind <;> rw [hak] at hna <;>
    first
    | exact absurd rfl hna
    | (cases hbk : fb.kind <;> rw [hbk] at hnbA hnbN <;>
        first
        | exact absurd rfl hnbA
        | exact absurd rfl hnbN
        | simp [filterOr, ha, hb, hak, hbk, hcl])

theorem filterOr_self_miss {h : Heap} {a : Nat} {fa : FilterObj}
    (ha : h.get a = some fa) (hnc : fa.kind.isConst = false)
    (hcl : alookup fa.orCache a = none) :
    filterOr h a (.filt a) =
      .ok (h.setObj a { fa with orCache := (a, a) :: fa.orCache }, a) := by
  cases hak : fa.kind <;> rw [hak] at hnc <;>
    first
    | exact absurd hnc (by decide)
    | simp [filterOr, ha, hak, hcl]

theorem filterOr_miss {h : Heap} {a b : Nat} {fa fb : FilterObj}
    (ha : h.get a = some fa) (hb : h.get b = some fb)
    (hna : fa.kind ≠ .always) (hnbA : fb.kind ≠ .always) (hnbN : fb.kind ≠ .never)
    (hab : a ≠ b) (hcl : alookup fa.orCache b = none) :
    filterOr h a (.filt b) =
      .ok ((h.alloc (FilterObj.fresh (.orList [a, b]))).setObj a
        { fa with orCache := (b, h.size) :: fa.orCache }, h.size) := by
  cases hak : fa.kind <;> rw [hak] at hna <;>
    first
    | exact absurd rfl hna
    | (cases hbk : fb.kind <;> rw [hbk] at hnbA hnbN <;>
        first
        | exact absurd rfl hnbA
        | exact absurd rfl hnbN
        | simp [filterOr, ha, hb, hak, hbk, hcl, hab])

theorem FKind.ne_of_isConst_false {k : FKind} (hk : k.isConst = false) :
    k ≠ .always ∧ k ≠ .never := by
  cases k <;> simp_all [FKind.isConst]

theorem filterInvert_hit {h : Heap} {x r : Nat} {fx : FilterObj}
    (hx : h.get x = some fx) (hnc : fx.kind.isConst = false)
    (hir : fx.invertResult = some r) :
    filterInvert h x = .ok (h, r) := by
  cases hxk : fx.kind <;> rw [hxk] at hnc <;>
    first
    | exact absurd hnc (by decide)
    | simp [filterInvert, hx, hxk, hir]

theorem filterInvert_miss {h : Heap} {x : Nat} {fx : FilterObj}
    (hx : h.get x = some fx) (hnc : fx.kind.isConst = false)
    (hir : fx.invertResult = none) :
    filterInvert h x =
      .ok ((h.alloc (FilterObj.fresh (.invertOf x))).setObj x
        { fx with invertResult := some h.size }, h.size) := by
  cases hxk : fx.kind <;> rw [hxk] at hnc <;>
    first
    | exact absurd hnc (by decide)
    | simp [filterInvert, hx, hxk, hir]

/-- C5 amended: for every filter whose operator is not overridden (every
kind except `Never` for `and`, every kind except `Always` for `or`), a
non-Filter argument immediately raises the `AssertionError` from
`assert isinstance(other, Filter)`; but `Never.and` and `Always.or` are
overridden without any argument check and silently return the constant
itself for any argument whatsoever. -/
theorem c5_amended (h : Heap) (x : Nat) (fx : FilterObj) (other : PyVal)
    (hx : h.get x = some fx) (hno : other.isFilt = false) :
    (fx.kind ≠ .never →
      filterAnd h x other = .error (.assertionError "Expecting filter")) ∧
    (fx.kind = .never → filterAnd h x other = .ok (h, x)) ∧
    (fx.kind ≠ .always →
      filterOr h x other = .error (.assertionError "Expecting filter")) ∧
    (fx.kind = .always → filterOr h x other = .ok (h, x)) := by
  refine ⟨?_, ?_, ?_, ?_⟩
  · intro hne
    cases hxk : fx.kind <;> rw [hxk] at hne <;>
      first
      | exact absurd rfl hne
      | (cases other <;>
          first
          | (simp [filterAnd, hx, hxk]; done)
          | simp [PyVal.isFilt] at hno)
  · intro hxk
    simp [filterAnd, hx, hxk]
  · intro hne
    cases hxk : fx.kind <;> rw [hxk] at hne <;>
      first
      | exact absurd rfl hne
      | (cases other <;>
          first
          | (simp [filterOr, hx, hxk]; done)
          | simp [PyVal.isFilt] at hno)
  · intro hxk
    simp [filterOr, hx, hxk]

theorem c5_amended_witness :
    (filterAnd hCC 0 (.bool true) = .error (.assertionError "Expecting filter")) ∧
    (filterAnd hN 0 (.bool true) = .ok (hN, 0)) := by
  have hc := c5_amended hCC 0 (FilterObj.fresh (.condition 0)) (.bool true) rfl (by decide)
  have hn := c5_amended hN 0 (FilterObj.fresh .never) (.bool true) rfl (by decide)
  exact ⟨hc.1 (by decide), hn.2.1 rfl⟩

/-- C6 amended: the right-hand constant laws hold with object identity
and allocate nothing, except that a filter whose own operator is
overridden returns itself instead of the operand: `X.and(Always) = X`
and `X.or(Never) = X` for every `X` without exception; `X.and(Never)`
returns the `Never` operand whenever `X` is not itself a `Never` (a
`Never` returns itself), and `X.or(Always)` returns the `Always` operand
whenever `X` is not itself an `Always` (an `Always` returns itself).  In
every case the heap is unchanged: no combinator node is allocated. -/
theorem c6_amended (h : Heap) (x c : Nat) (fx fc : FilterObj)
    (hx : h.get x = some fx) (hc : h.get c = some fc) :
    (fc.kind = .always → filterAnd h x (.filt c) = .ok (h, x)) ∧
    (fc.kind = .never → filterOr h x (.filt c) = .ok (h, x)) ∧
    (fc.kind = .never → fx.kind ≠ .never → filterAnd h x (.filt c) = .ok (h, c)) ∧
    (fc.kind = .always → fx.kind ≠ .always → filterOr h x (.filt c) = .ok (h, c)) := by
  refine ⟨?_, ?_, ?_, ?_⟩
  · intro hck
    cases hxk : fx.kind <;> simp [filterAnd, hx, hc, hck, hxk]
  · intro hck
    cases hxk : fx.kind <;> simp [filterOr, hx, hc, hck, hxk]
  · intro hck hne
    cases hxk : fx.kind <;> rw [hxk] at hne <;>
      first
      | exact absurd rfl hne
      | simp [filterAnd, hx, hc, hck, hxk]
  · intro hck hne
    cases hxk : fx.kind <;> rw [hxk] at hne <;>
      first
      | exact absurd rfl hne
      | simp [filterOr, hx, hc, hck, hxk]

/-- C2 amended: combining with a constant on the LEFT does not reduce to
the operand: `Always` inherits `Filter.__and__` and `Never` inherits
`Filter.__or__`, so on a cache miss `Always.and(X)` (for non-constant
`X`) allocates and returns a fresh `_AndList` node distinct from `X`,
and `Never.or(X)` a fresh `_OrList` node.  The only left-constant
reductions are the overridden `Never.and(X)` and `Always.or(X)`, which
return the left constant itself; so the reduction is not independent of
operand order. -/
theorem c2_amended (h : Heap) (a x : Nat) (fa fx : FilterObj)
    (ha : h.get a = some fa) (hx : h.get x = some fx)
    (hnc : fx.kind.isConst = false) :
    (fa.kind = .always → alookup fa.andCache x = none →
      filterAnd h a (.filt x) =
        .ok ((h.alloc (FilterObj.fresh (.andList [a, x]))).setObj a
          { fa with andCache := (x, h.size) :: fa.andCache }, h.size) ∧
      h.size ≠ x) ∧
    (fa.kind = .never → alookup fa.orCache x = none →
      filterOr h a (.filt x) =
        .ok ((h.alloc (FilterObj.fresh (.orList [a, x]))).setObj a
          { fa with orCache := (x, h.size) :: fa.orCache }, h.size) ∧
      h.size ≠ x) ∧
    (fa.kind = .never → filterAnd h a (.filt x) = .ok (h, a)) ∧
    (fa.kind = .always → filterOr h a (.filt x) = .ok (h, a)) := by
  have hne := FKind.ne_of_isConst_false hnc
  have hxlt : x < h.size := lget_lt_of_some hx
  refine ⟨?_, ?_, ?_, ?_⟩
  · intro hak hmiss
    have hax : a ≠ x := by
      intro he
      rw [he, hx] at ha
      rw [Option.some.inj ha, hak] at hnc
      exact absurd hnc (by decide)
    refine ⟨filterAnd_miss ha hx (by simp [hak]) hne.1 hne.2 hax hmiss, ne_of_gt hxlt⟩
  · intro hak hmiss
    have hax : a ≠ x := by
      intro he
      rw [he, hx] at ha
      rw [Option.some.inj ha, hak] at hnc
      exact absurd hnc (by decide)
    refine ⟨filterOr_miss ha hx (by simp [hak]) hne.1 hne.2 hax hmiss, ne_of_gt hxlt⟩
  · intro hak
    simp [filterAnd, ha, hak]
  · intro hak
    simp [filterOr, ha, hak]

theorem c2_amended_witness :
    (filterAnd hAX 0 (.filt 1) =
      .ok ((hAX.alloc (FilterObj.fresh (.andList [0, 1]))).setObj 0
        { FilterObj.fresh .always with
            andCache := (1, hAX.size) :: (FilterObj.fresh .always).andCache }, hAX.size) ∧
      hAX.size ≠ 1) ∧
    (filterOr hNX 0 (.filt 1) =
      .ok ((hNX.alloc (FilterObj.fresh (.orList [0, 1]))).setObj 0
        { FilterObj.fresh .never with
            orCache := (1, hNX.size) :: (FilterObj.fresh .never).orCache }, hNX.size) ∧
      hNX.size ≠ 1) := by
  have h1 := c2_amended hAX 0 1 (FilterObj.fresh .always) (FilterObj.fresh (.condition 0))
    rfl rfl (by decide)
  have h2 := c2_amended hNX 0 1 (FilterObj.fresh .never) (FilterObj.fresh (.condition 0))
    rfl rfl (by decide)
  exact ⟨h1.1 rfl rfl, h2.2.1 rfl rfl⟩

/-- C3 amended: for every NON-constant filter, negation is computed at
most once per instance: the first `~x` stores the `_Invert` node in
`x._invert_result` and every later `~x` returns that identical object
with the heap unchanged.  The constants are excluded: `Always.__invert__`
and `Never.__invert__` construct a fresh opposite constant on every call
(two successive negations of the same constant yield two distinct
objects), and `Always`/`Never` are ordinary classes, not process-wide
singletons. -/
theorem c3_amended (h : Heap) (x : Nat) (fx : FilterObj)
    (hx : h.get x = some fx) (hnc : fx.kind.isConst = false) :
    (∃ h1 r, filterInvert h x = .ok (h1, r) ∧ filterInvert h1 x = .ok (h1, r)) ∧
    (∀ (a : Nat) (fa : FilterObj), h.get a = some fa → fa.kind.isConst = true →
      ∃ h1 r1 h2 r2, filterInvert h a = .ok (h1, r1) ∧
        filterInvert h1 a = .ok (h2, r2) ∧ r1 ≠ r2) := by
  constructor
  · cases hir : fx.invertResult with
    | some r =>
      have he : filterInvert h x = .ok (h, r) := filterInvert_hit hx hnc hir
      exact ⟨h, r, he, he⟩
    | none =>
      refine ⟨(h.alloc (FilterObj.fresh (.invertOf x))).setObj x
        { fx with invertResult := some h.size }, h.size,
        filterInvert_miss hx hnc hir, ?_⟩
      have hg1 : ((h.alloc (FilterObj.fresh (.invertOf x))).setObj x
          { fx with invertResult := some h.size }).get x =
          some { fx with invertResult := some h.size } :=
        Heap.get_set_self (Heap.get_alloc_lt hx _) _
      exact filterInvert_hit hg1 hnc rfl
  · intro a fa hga hconst
    cases hak : fa.kind with
    | always =>
      refine ⟨h.alloc (FilterObj.fresh .never), h.size,
        (h.alloc (FilterObj.fresh .never)).alloc (FilterObj.fresh .never),
        (h.alloc (FilterObj.fresh .never)).size, ?_, ?_, ?_⟩
      · simp [filterInvert, hga, hak]
      · have hga1 : (h.alloc (FilterObj.fresh .never)).get a = some fa :=
          Heap.get_alloc_lt hga _
        simp [filterInvert, hga1, hak]
      · simp only [Heap.size_alloc]
        omega
    | never =>
      refine ⟨h.alloc (FilterObj.fresh .always), h.size,
        (h.alloc (FilterObj.fresh .always)).alloc (FilterObj.fresh .always),
        (h.alloc (FilterObj.fresh .always)).size, ?_, ?_, ?_⟩
      · simp [filterInvert, hga, hak]
      · have hga1 : (h.alloc (FilterObj.fresh .always)).get a = some fa :=
          Heap.get_alloc_lt hga _
        simp [filterInvert, hga1, hak]
      · simp only [Heap.size_alloc]
        omega
    | andList cs => rw [hak] at hconst; simp [FKind.isConst] at hconst
    | orList cs => rw [hak] at hconst; simp [FKind.isConst] at hconst
    | invertOf j => rw [hak] at hconst; simp [FKind.isConst] at hconst
    | condition k => rw [hak] at hconst; simp [FKind.isConst] at hconst

theorem c3_amended_witness :
    (∃ h1 r, filterInvert hCC 0 = .ok (h1, r) ∧ filterInvert h1 0 = .ok (h1, r)) ∧
    (∀ (a : Nat) (fa : FilterObj), hCC.get a = some fa → fa.kind.isConst = true →
      ∃ h1 r1 h2 r2, filterInvert hCC a = .ok (h1, r1) ∧
        filterInvert h1 a = .ok (h2, r2) ∧ r1 ≠ r2) :=
  c3_amended hCC 0 (FilterObj.fresh (.condition 0)) rfl (by decide)

theorem c6_amended_witness :
    filterAnd hAX 1 (.filt 0) = .ok (hAX, 1) ∧
    filterAnd hNX 1 (.filt 0) = .ok (hNX, 0) := by
  have h1 := c6_amended hAX 1 0 (FilterObj.fresh (.condition 0)) (FilterObj.fresh .always)
    rfl rfl
  have h2 := c6_amended hNX 1 0 (FilterObj.fresh (.condition 0)) (FilterObj.fresh .never)
    rfl rfl
  exact ⟨h1.1 rfl, h2.2.2.1 rfl (by decide)⟩

/-- C7: combining a non-constant filter with itself is idempotent at the
object level: `X & X` returns `X` itself and `X | X` returns `X` itself
(on a cache miss, `_AndList.create([X, X])` deduplicates via
`list(set(...))` to the single filter `X`; on a hit, the cache — which
the API only ever fills with `X` under the self key — returns it). -/
theorem c7_self_combination_idempotent (h : Heap) (x : Nat) (fx : FilterObj)
    (hx : h.get x = some fx) (hnc : fx.kind.isConst = false)
    (hca : alookup fx.andCache x = none ∨ alookup fx.andCache x = some x)
    (hco : alookup fx.orCache x = none ∨ alookup fx.orCache x = some x) :
    (∃ h1, filterAnd h x (.filt x) = .ok (h1, x)) ∧
    (∃ h2, filterOr h x (.filt x) = .ok (h2, x)) := by
  have hne := FKind.ne_of_isConst_false hnc
  constructor
  · rcases hca with hmiss | hhit
    · exact ⟨_, filterAnd_self_miss hx hnc hmiss⟩
    · exact ⟨h, filterAnd_cache_hit hx hx hne.2 hne.1 hne.2 hhit⟩
  · rcases hco with hmiss | hhit
    · exact ⟨_, filterOr_self_miss hx hnc hmiss⟩
    · exact ⟨h, filterOr_cache_hit hx hx hne.1 hne.1 hne.2 hhit⟩

theorem c7_self_combination_idempotent_witness :
    (∃ h1, filterAnd hCC 0 (.filt 0) = .ok (h1, 0)) ∧
    (∃ h2, filterOr hCC 0 (.filt 0) = .ok (h2, 0)) :=
  c7_self_combination_idempotent hCC 0 (FilterObj.fresh (.condition 0)) rfl (by decide)
    (Or.inl rfl) (Or.inl rfl)

/-- C8: cache stability.  For non-constant `A` and `B`, calling
`A & B` twice in succession returns the identical object both times, and
the second call leaves the heap untouched (it hits `A._and_cache` keyed
by the identity of `B` instead of rebuilding a tree); likewise for
`A | B` and `A._or_cache`. -/
theorem c8_cache_stability (h : Heap) (a b : Nat) (fa fb : FilterObj)
    (ha : h.get a = some fa) (hb : h.get b = some fb)
    (hna : fa.kind.isConst = false) (hnb : fb.kind.isConst = false) :
    (∃ h1 r, filterAnd h a (.filt b) = .ok (h1, r) ∧
      filterAnd h1 a (.filt b) = .ok (h1, r)) ∧
    (∃ h1 r, filterOr h a (.filt b) = .ok (h1, r) ∧
      filterOr h1 a (.filt b) = .ok (h1, r)) := by
  have hA := FKind.ne_of_isConst_false hna
  have hB := FKind.ne_of_isConst_false hnb
  constructor
  · cases hcl : alookup fa.andCache b with
    | some r =>
      have he : filterAnd h a (.filt b) = .ok (h, r) :=
        filterAnd_cache_hit ha hb hA.2 hB.1 hB.2 hcl
      exact ⟨h, r, he, he⟩
    | none =>
      by_cases hab : a = b
      · subst hab
        rw [ha] at hb
        obtain rfl : fa = fb := Option.some.inj hb
        have h1st := filterAnd_self_miss ha hna hcl
        have ha1 : (h.setObj a { fa with andCache := (a, a) :: fa.andCache }).get a =
            some { fa with andCache := (a, a) :: fa.andCache } :=
          Heap.get_set_self ha _
        have hl : alookup ((a, a) :: fa.andCache) a = some a := by simp [alookup]
        have h2nd := filterAnd_cache_hit ha1 ha1 hA.2 hA.1 hA.2 hl
        exact ⟨_, a, h1st, h2nd⟩
      · have h1st := filterAnd_miss ha hb hA.2 hB.1 hB.2 hab hcl
        have ha1 : ((h.alloc (FilterObj.fresh (.andList [a, b]))).setObj a
            { fa with andCache := (b, h.size) :: fa.andCache }).get a =
            some { fa with andCache := (b, h.size) :: fa.andCache } :=
          Heap.get_set_self (Heap.get_alloc_lt ha _) _
        have hb1 : ((h.alloc (FilterObj.fresh (.andList [a, b]))).setObj a
            { fa with andCache := (b, h.size) :: fa.andCache }).get b = some fb := by
          rw [Heap.get_set_ne _ hab]
          exact Heap.get_alloc_lt hb _
        have hl : alookup ((b, h.size) :: fa.andCache) b = some h.size := by
          simp [alookup]
        have h2nd := filterAnd_cache_hit ha1 hb1 hA.2 hB.1 hB.2 hl
        exact ⟨_, h.size, h1st, h2nd⟩
  · cases hcl : alookup fa.orCache b with
    | some r =>
      have he : filterOr h a (.filt b) = .ok (h, r) :=
        filterOr_cache_hit ha hb hA.1 hB.1 hB.2 hcl
      exact ⟨h, r, he, he⟩
    | none =>
      by_cases hab : a = b
      · subst hab
        rw [ha] at hb
        obtain rfl : fa = fb := Option.some.inj hb
        have h1st := filterOr_self_miss ha hna hcl
        have ha1 : (h.setObj a { fa with orCache := (a, a) :: fa.orCache }).get a =
            some { fa with orCache := (a, a) :: fa.orCache } :=
          Heap.get_set_self ha _
        have hl : alookup ((a, a) :: fa.orCache) a = some a := by simp [alookup]
        have h2nd := filterOr_cache_hit ha1 ha1 hA.1 hA.1 hA.2 hl
        exact ⟨_, a, h1st, h2nd⟩
      · have h1st := filterOr_miss ha hb hA.1 hB.1 hB.2 hab hcl
        have ha1 : ((h.alloc (FilterObj.fresh (.orList [a, b]))).setObj a
            { fa with orCache := (b, h.size) :: fa.orCache }).get a =
            some { fa with orCache := (b, h.size) :: fa.orCache } :=
          Heap.get_set_self (Heap.get_alloc_lt ha _) _
        have hb1 : ((h.alloc (FilterObj.fresh (.orList [a, b]))).setObj a
            { fa with orCache := (b, h.size) :: fa.orCache }).get b = some fb := by
          rw [Heap.get_set_ne _ hab]
          exact Heap.get_alloc_lt hb _
        have hl : alookup ((b, h.size) :: fa.orCache) b = some h.size := by
          simp [alookup]
        have h2nd := filterOr_cache_hit ha1 hb1 hA.1 hB.1 hB.2 hl
        exact ⟨_, h.size, h1st, h2nd⟩

theorem c8_cache_stability_witness :
    (∃ h1 r, filterAnd hCC 0 (.filt 1) = .ok (h1, r) ∧
      filterAnd h1 0 (.filt 1) = .ok (h1, r)) ∧
    (∃ h1 r, filterOr hCC 0 (.filt 1) = .ok (h1, r) ∧
      filterOr h1 0 (.filt 1) = .ok (h1, r)) :=
  c8_cache_stability hCC 0 1 (FilterObj.fresh (.condition 0)) (FilterObj.fresh (.condition 1))
    rfl rfl (by decide) (by decide)

/-- C9: short-circuit evaluation.  `all(...)` over the children of an
`_AndList` yields `True` exactly when every child result is `True`, and
`any(...)` over the children of an `_OrList` yields `True` exactly when
some child result is `True` (among children that evaluate to booleans);
concretely, on the heap `hC9` the `_AndList` with children
`[False-leaf, raising-leaf]` evaluates to `False` although its second
child alone raises, and the `_OrList` with children
`[True-leaf, raising-leaf]` evaluates to `True` without the raising leaf
ever being reached. -/
theorem c9_short_circuit :
    (∀ es : List (Except PErr Bool), evalAll es = .ok true ↔ ∀ e ∈ es, e = .ok true) ∧
    (∀ es : List (Except PErr Bool), (∀ e ∈ es, ∃ b, e = .ok b) →
      (evalAny es = .ok true ↔ ∃ e ∈ es, e = .ok true)) ∧
    evalFilter envC9 hC9 9 2 = .ok false ∧
    evalFilter envC9 hC9 9 1 = .error (.valueError "boom") ∧
    evalFilter envC9 hC9 9 4 = .ok true := by
  refine ⟨?_, ?_, rfl, rfl, rfl⟩
  · intro es
    induction es with
    | nil => simp [evalAll]
    | cons e rest ih =>
      cases e with
      | error err => simp [evalAll]
      | ok b => cases b <;> simp [evalAll, ih]
  · intro es
    induction es with
    | nil => intro _; simp [evalAny]
    | cons e rest ih =>
      intro hbs
      obtain ⟨b, rfl⟩ := hbs e (by simp)
      have hrest : ∀ e ∈ rest, ∃ b, e = .ok b := fun e hm => hbs e (by simp [hm])
      cases b with
      | true => simp [evalAny]
      | false => simp [evalAny, ih hrest]

theorem c9_short_circuit_witness :
    evalAny [Except.ok false, Except.ok true] = .ok true ∧
    evalAll ([] : List (Except PErr Bool)) = .ok true := by
  constructor
  · refine (c9_short_circuit.2.1 [.ok false, .ok true] ?_).mpr ?_
    · intro e he
      simp only [List.mem_cons, List.not_mem_nil, or_false] at he
      rcases he with rfl | rfl
      · exact ⟨false, rfl⟩
      · exact ⟨true, rfl⟩
    · exact ⟨.ok true, by simp, rfl⟩
  · exact (c9_short_circuit.1 []).mpr (by simp)

end PTFilters
